import Mathlib

/-!
Shallow embedding of the jybp/ebay Go client library (request construction,
dispatch and error decoding), used to check the specification's claims.

Strings are modelled at the level of their character lists; the Go code
operates on ASCII bytes, and every theorem below restricts its inputs to
ASCII characters, where a Go byte and a Lean `Char` coincide.

The embedding of `net/url` (`Parse`, `ResolveReference`, `String`) is a
translation of the Go standard library code paths that the repository
exercises.  Percent-decoding of `%`-escapes, userinfo/port/IP-literal hosts
and non-ASCII input are outside the modelled domain; no theorem below feeds
such an input to the model.
-/

namespace Ebay

/-- Control bytes as rejected by Go `net/url.Parse` (`stringContainsCTLByte`):
anything below 0x20 and the DEL byte 0x7f. -/
def isCtl (c : Char) : Bool :=
  decide (c.toNat < 32 ∨ c.toNat = 127)

/-- Go `stringContainsCTLByte`. -/
def hasCtl (l : List Char) : Bool :=
  l.any isCtl

/-- Split a character list at the first occurrence of `sep`.  Returns the part
before the separator and, when the separator occurs, the part after it (the
separator itself is dropped).  This models Go's `strings.Cut` / `split`. -/
def splitFirst (sep : Char) : List Char → List Char × Option (List Char)
  | [] => ([], none)
  | c :: rest =>
    if c = sep then ([], some rest)
    else (c :: (splitFirst sep rest).1, (splitFirst sep rest).2)

/-- Split a character list on every occurrence of `sep` (Go `strings.Split`).
The result is always non-empty. -/
def splitOnChar (sep : Char) : List Char → List (List Char)
  | [] => [[]]
  | c :: rest =>
    if c = sep then [] :: splitOnChar sep rest
    else
      match splitOnChar sep rest with
      | s :: tl => (c :: s) :: tl
      | [] => [[c]]

/-- Index of the last occurrence of `sep` (Go `strings.LastIndex` for a
one-byte separator), `none` when absent. -/
def lastIndexChar (sep : Char) : List Char → Option Nat
  | [] => none
  | c :: rest =>
    match lastIndexChar sep rest with
    | some i => some (i + 1)
    | none => if c = sep then some 0 else none

/-- Go byte test `'a' <= c && c <= 'z' || 'A' <= c && c <= 'Z'`. -/
def isAlphaByte (c : Char) : Bool :=
  decide ((97 ≤ c.toNat ∧ c.toNat ≤ 122) ∨ (65 ≤ c.toNat ∧ c.toNat ≤ 90))

/-- Go byte test `'0' <= c && c <= '9'`. -/
def isDigitByte (c : Char) : Bool :=
  decide (48 ≤ c.toNat ∧ c.toNat ≤ 57)

/-- Go byte test for an ASCII letter or digit. -/
def isAlphaNumByte (c : Char) : Bool :=
  isAlphaByte c || isDigitByte c

/-!  Percent-escaping, translated from `net/url.shouldEscape` and `escape`. -/

/-- The escaping modes of `net/url` used by this code base. -/
inductive EncMode where
  | path
  | host
  | queryComponent
  | fragment
deriving DecidableEq

/-- Characters that `net/url.shouldEscape` leaves unescaped in host names
beyond the RFC 3986 unreserved set. -/
def hostExtra : List Char :=
  ['!', '$', '&', '\'', '(', ')', '*', '+', ',', ';', '=', ':', '[', ']', '<', '>', '"']

/-- The extra unescaped-in-host test of `net/url.shouldEscape`. -/
def hostModeExtra (mode : EncMode) (c : Char) : Bool :=
  match mode with
  | .host => decide (c ∈ hostExtra)
  | _ => false

/-- Translation of `net/url.shouldEscape`, restricted to the modes used here. -/
def shouldEscape (c : Char) (mode : EncMode) : Bool :=
  if isAlphaNumByte c then false
  else if hostModeExtra mode c then false
  else if c ∈ ['-', '_', '.', '~'] then false
  else if c ∈ ['$', '&', '+', ',', '/', ':', ';', '=', '?', '@'] then
    (match mode with
     | .path => c == '?'
     | .queryComponent => true
     | .fragment => false
     | .host => true)
  else true

/-- Upper-case hex digit, as in `net/url`'s `"0123456789ABCDEF"`. -/
def upperHexDigit (n : Nat) : Char :=
  if n < 10 then Char.ofNat (48 + n) else Char.ofNat (55 + n)

/-- Escape one character as `net/url.escape` does: a space becomes `+` in a
query component, and any character that `shouldEscape` flags becomes `%XX`. -/
def escapeChar (c : Char) (mode : EncMode) : List Char :=
  if (match mode with | .queryComponent => true | _ => false) && decide (c = ' ') then ['+']
  else if shouldEscape c mode then
    ['%', upperHexDigit (c.toNat / 16), upperHexDigit (c.toNat % 16)]
  else [c]

/-- Escape a character list in the given mode (`net/url.escape`). -/
def escapeList (mode : EncMode) : List Char → List Char
  | [] => []
  | c :: rest => escapeChar c mode ++ escapeList mode rest

/-!  The `net/url.URL` structure and its operations. -/

/-- The fields of Go's `url.URL` that this code base reads or writes.  The
`Opaque` field is called `opq` here.  `User`, `RawPath` and `RawFragment` are
not modelled: the repository never produces userinfo, and within the modelled
domain (no `%`-escapes in the input) `RawPath`/`RawFragment` stay empty, making
`EscapedPath` equal to `escape(Path, encodePath)`. -/
structure GoURL where
  scheme : List Char := []
  opq : List Char := []
  host : List Char := []
  path : List Char := []
  forceQuery : Bool := false
  rawQuery : List Char := []
  fragment : List Char := []
deriving DecidableEq

/-- Go `URL.EscapedPath` within the modelled domain (`RawPath` empty). -/
def escapedPath (u : GoURL) : List Char :=
  escapeList .path u.path

/-- Translation of `net/url.getScheme`.  `orig` is the whole input, returned
unchanged when no scheme is present; `acc` is the scheme prefix read so far.
The error case is a colon at position zero (`missing protocol scheme`). -/
def getSchemeAux (orig : List Char) : List Char → List Char → Except Unit (List Char × List Char)
  | [], _ => .ok ([], orig)
  | c :: rest, acc =>
    if isAlphaByte c then getSchemeAux orig rest (acc ++ [c])
    else if isDigitByte c ∨ c = '+' ∨ c = '-' ∨ c = '.' then
      (if acc = [] then .ok ([], orig) else getSchemeAux orig rest (acc ++ [c]))
    else if c = ':' then
      (if acc = [] then .error () else .ok (acc, rest))
    else .ok ([], orig)

/-- Go `net/url.getScheme`. -/
def getScheme (l : List Char) : Except Unit (List Char × List Char) :=
  getSchemeAux l l []

/-- The query split performed by `net/url.parse`: a trailing `?` that is the
only `?` sets `ForceQuery`; otherwise the input is cut at the first `?`.
Returns (rest, forceQuery, rawQuery). -/
def parseQuerySplit (rest : List Char) : List Char × Bool × List Char :=
  match splitFirst '?' rest with
  | (pre, some []) => (pre, true, [])
  | (pre, some q) => (pre, false, q)
  | (pre, none) => (pre, false, [])

/-- Host validation, standing in for `net/url.parseAuthority`/`parseHost`.
Only plain host names made of letters, digits, dots, dashes and underscores
are inside the modelled domain; userinfo, ports, IP literals and
percent-escapes are not. -/
def parseHost (l : List Char) : Option (List Char) :=
  if l.all (fun c => isAlphaNumByte c || c = '.' || c = '-' || c = '_') then some l else none

/-- The remainder of `net/url.parse` (with `viaRequest = false`) after the
scheme and query have been split off. -/
def parseAfterQuery (scheme rest : List Char) (forceQuery : Bool) (rawQuery : List Char) :
    Option GoURL :=
  if rest.head? = some '/' then
    if rest.take 2 = ['/', '/'] ∧ (scheme ≠ [] ∨ rest.take 3 ≠ ['/', '/', '/']) then
      match splitFirst '/' (rest.drop 2) with
      | (authority, restAfter) =>
        match parseHost authority with
        | none => none
        | some h =>
          some { scheme := scheme, host := h,
                 path := (match restAfter with | some r => '/' :: r | none => []),
                 forceQuery := forceQuery, rawQuery := rawQuery }
    else
      some { scheme := scheme, path := rest, forceQuery := forceQuery, rawQuery := rawQuery }
  else if scheme ≠ [] then
    some { scheme := scheme, opq := rest, forceQuery := forceQuery, rawQuery := rawQuery }
  else if ':' ∈ (splitFirst '/' rest).1 then
    none
  else
    some { scheme := scheme, path := rest, forceQuery := forceQuery, rawQuery := rawQuery }

/-- Translation of `net/url.parse` with `viaRequest = false`: reject control
bytes, read the scheme (lower-casing it), split the query, then parse the
authority or treat the rest as an opaque part or a path (with the
colon-in-first-segment check for scheme-less relative paths). -/
def parseNoFrag (l : List Char) : Option GoURL :=
  if hasCtl l then none
  else
    match getScheme l with
    | .error _ => none
    | .ok (schemeRaw, rest) =>
      match parseQuerySplit rest with
      | (rest2, fq, rq) => parseAfterQuery (schemeRaw.map Char.toLower) rest2 fq rq

/-- Translation of `net/url.Parse`: cut the fragment off, parse the rest. -/
def parseURL (l : List Char) : Option GoURL :=
  match splitFirst '#' l with
  | (pre, frag) =>
    match parseNoFrag pre with
    | none => none
    | some u =>
      match frag with
      | none => some u
      | some f => some { u with fragment := f }

/-- Translation of `net/url.resolvePath`'s dot-segment loop: process the
segments of the merged path, dropping `.`, popping on `..` and appending
anything else.  `acc` holds the output segments in reverse. -/
def resolveSegs : List (List Char) → List (List Char) → List (List Char)
  | [], acc => acc.reverse
  | e :: rest, acc =>
    if e = ['.'] then resolveSegs rest acc
    else if e = ['.', '.'] then resolveSegs rest (acc.drop 1)
    else resolveSegs rest (e :: acc)

/-- Join segments with a separator (Go `strings.Join`). -/
def joinSegs (sep : Char) : List (List Char) → List Char
  | [] => []
  | [s] => s
  | s :: rest => s ++ sep :: joinSegs sep rest

/-- Translation of `net/url.resolvePath`: merge `ref` into the directory of
`base` (RFC 3986 section 5.3), remove dot segments, keep a trailing slash
after a final `.`/`..`, and force a single leading slash. -/
def resolvePath (base ref : List Char) : List Char :=
  let full :=
    if ref = [] then base
    else if ref.head? = some '/' then ref
    else
      (match lastIndexChar '/' base with
       | none => ref
       | some i => base.take (i + 1) ++ ref)
  if full = [] then []
  else
    let segs := splitOnChar '/' full
    let dst := resolveSegs segs []
    let dst := if segs.getLast? = some ['.'] ∨ segs.getLast? = some ['.', '.'] then
        dst ++ [[]]
      else dst
    let joined := joinSegs '/' dst
    '/' :: (if joined.head? = some '/' then joined.drop 1 else joined)

/-- Translation of `net/url.URL.ResolveReference` (`User` is not modelled). -/
def resolveReference (u ref : GoURL) : GoURL :=
  let url := if ref.scheme = [] then { ref with scheme := u.scheme } else ref
  if ref.scheme ≠ [] ∨ ref.host ≠ [] then
    { url with path := resolvePath (escapedPath ref) [] }
  else if ref.opq ≠ [] then
    { url with host := [], path := [] }
  else
    let url :=
      if ref.path = [] ∧ ¬ref.forceQuery ∧ ref.rawQuery = [] then
        let url := { url with rawQuery := u.rawQuery }
        if ref.fragment = [] then { url with fragment := u.fragment } else url
      else url
    { url with host := u.host, path := resolvePath (escapedPath u) (escapedPath ref) }

/-- Guard from `URL.String`: a relative URL whose first path segment contains
a colon is printed with a leading `./`. -/
def needsDotSlash (p : List Char) : Bool :=
  match splitFirst ':' p with
  | (pre, some _) => !pre.contains '/'
  | (_, none) => false

/-- Translation of `net/url.URL.String` (without userinfo). -/
def urlString (u : GoURL) : List Char :=
  let buf : List Char := if u.scheme ≠ [] then u.scheme ++ [':'] else []
  let core :=
    if u.opq ≠ [] then buf ++ u.opq
    else
      let buf :=
        if u.scheme ≠ [] ∨ u.host ≠ [] then
          (buf ++ (if u.host ≠ [] ∨ u.path ≠ [] then ['/', '/'] else []))
            ++ escapeList .host u.host
        else buf
      let p := escapedPath u
      let buf := if p ≠ [] ∧ ¬(p.head? = some '/') ∧ u.host ≠ [] then buf ++ ['/'] else buf
      let buf := if buf = [] ∧ needsDotSlash p then buf ++ ['.', '/'] else buf
      buf ++ p
  let core := if u.forceQuery ∨ u.rawQuery ≠ [] then core ++ '?' :: u.rawQuery else core
  if u.fragment ≠ [] then core ++ '#' :: escapeList .fragment u.fragment else core

/-- Go `URL.Parse` (the method): parse the reference, resolve it against the
receiver. -/
def urlParseRef (u : GoURL) (ref : List Char) : Option GoURL :=
  (parseURL ref).map (resolveReference u)

/-!  The eBay client (`src/ebay.go`). -/

/-- An outgoing `http.Request` as far as this library observes it: method,
absolute URL string and the header map.  The header is modelled as a total
function from header name to value; both options of the library use fixed
literal names, for which Go's canonical-key conversion is consistent between
`Set` and `Get`. -/
structure Request where
  method : String
  url : String
  header : String → String

/-- Header write, Go `http.Header.Set`: assign, replacing any prior value. -/
def headerSet (req : Request) (key value : String) : Request :=
  { req with header := fun k => if k = key then value else req.header k }

/-- Header read, Go `http.Header.Get` (empty string when unset). -/
def headerGet (req : Request) (key : String) : String :=
  req.header key

/-- A functional option, `type Opt func(*http.Request)` from `src/ebay.go`. -/
def Opt : Type :=
  Request → Request

/-- The `Client` of `src/ebay.go`.  Its `baseURL` field is a `*url.URL`; the
`Option` models the nil pointer that `newClient` stores when `url.Parse`
fails (the error is discarded: `url, _ := url.Parse(baseURL)`). -/
structure Client where
  baseURL : Option GoURL

/-- Production base URL constant from `src/ebay.go`. -/
def prodBaseURL : String :=
  "https://api.ebay.com/"

/-- Sandbox base URL constant from `src/ebay.go`. -/
def sandboxBaseURL : String :=
  "https://api.sandbox.ebay.com/"

/-- The `newClient` constructor of `src/ebay.go` (the HTTP client and the
service back-references carry no observable state and are not modelled). -/
def newClient (baseURL : String) : Client :=
  { baseURL := parseURL baseURL.data }

/-- The `NewClient` constructor of `src/ebay.go`. -/
def NewClient : Client :=
  newClient prodBaseURL

/-- The `NewSandboxClient` constructor of `src/ebay.go`. -/
def NewSandboxClient : Client :=
  newClient sandboxBaseURL

/-- The `NewCustomClient` constructor of `src/ebay.go`: reject a base URL
without a trailing slash, otherwise defer to `newClient`. -/
def NewCustomClient (baseURL : String) : Except String Client :=
  if baseURL.data.getLast? = some '/' then .ok (newClient baseURL)
  else .error ("BaseURL " ++ baseURL ++ " must have a trailing slash")

/-- Token characters accepted in an HTTP method by `net/http` (`validMethod`
via `httpguts.IsTokenRune`).  `Char.ofNat 96` is the backquote character. -/
def isTokenChar (c : Char) : Bool :=
  isAlphaNumByte c
    || decide (c ∈ ['!', '#', '$', '%', '&', '\'', '*', '+', '-', '.', '^', '_', '|', '~'])
    || c = Char.ofNat 96

/-- Model of `net/http.NewRequest` for a nil body: default an empty method to
GET, reject invalid method tokens, and store the URL string.  Re-parsing of
the URL inside `http.NewRequest` is not modelled: every URL handed to it here
is the `String()` of a parsed `url.URL`, which re-parses successfully. -/
def httpNewRequest (method url : String) : Except String Request :=
  let m := if method = "" then "GET" else method
  if m.data.all isTokenChar then .ok { method := m, url := url, header := fun _ => "" }
  else .error "net/http: invalid method"

/-- Outcome of `Client.NewRequest`.  `panicked` models the Go runtime panic
(nil-pointer dereference) that occurs when `c.baseURL` is nil. -/
inductive ReqResult where
  | panicked
  | err (msg : String)
  | ok (req : Request)

/-- The `Client.NewRequest` of `src/ebay.go`: reject a path with a leading
slash, resolve the path against the base URL (a nil base URL panics), build
the `http.Request` and apply the options in order. -/
def NewRequest (c : Client) (method url : String) (opts : List Opt) : ReqResult :=
  if url.data.head? = some '/' then
    .err "url should always be specified without a preceding slash"
  else
    match c.baseURL with
    | none => .panicked
    | some b =>
      match urlParseRef b url.data with
      | none => .err "parse error"
      | some u =>
        match httpNewRequest method ⟨urlString u⟩ with
        | .error e => .err e
        | .ok req => .ok (opts.foldl (fun r o => o r) req)

/-!  JSON values, the error payload and `CheckResponse` (`src/ebay.go`).

A response body is modelled as `Option Json`: `some j` when the body is a
single syntactically well-formed JSON document with value `j` (numbers
restricted to integers), `none` when the body is empty or not valid JSON.
`encoding/json`'s `Decoder.Decode` reads a complete value before
unmarshalling, so a syntax error leaves the destination untouched, while
type mismatches inside a well-formed value leave only the mismatched field
at its previous value and continue. -/

/-- A JSON value (numbers restricted to integers, which is all the decoded
shapes here use). -/
inductive Json where
  | null
  | bool (b : Bool)
  | num (n : Int)
  | str (s : String)
  | arr (elems : List Json)
  | obj (fields : List (String × Json))

/-- One `name`/`value` parameter of an eBay error record (`src/ebay.go`,
`ErrorData.Errors[].Parameters`). -/
structure ErrorParam where
  name : String := ""
  value : String := ""
deriving DecidableEq

/-- One error record of the eBay error payload (`src/ebay.go`,
`ErrorData.Errors`; the `OuputRefIds` field name reproduces the source, its
JSON tag is `outputRefIds`). -/
structure ErrorRec where
  errorID : Int := 0
  domain : String := ""
  subDomain : String := ""
  category : String := ""
  message : String := ""
  longMessage : String := ""
  inputRefIds : List String := []
  ouputRefIds : List String := []
  parameters : List ErrorParam := []
deriving DecidableEq

/-- ASCII lower-casing of one character (the domain of the JSON keys used
by this code base is ASCII). -/
def asciiLower (c : Char) : Char :=
  if 65 ≤ c.toNat ∧ c.toNat ≤ 90 then Char.ofNat (c.toNat + 32) else c

/-- Go JSON field-name matching: exact tag match, else case-insensitive
(`strings.EqualFold`, restricted to ASCII). -/
def keyMatch (tag key : String) : Bool :=
  tag.data == key.data || tag.data.map asciiLower == key.data.map asciiLower

/-- Decode a JSON value into a string field: a JSON string replaces the
current value, anything else (null or a type mismatch) leaves it unchanged. -/
def decStr (cur : String) : Json → String
  | .str s => s
  | _ => cur

/-- Decode a JSON value into an int field, as `decStr`. -/
def decInt (cur : Int) : Json → Int
  | .num n => n
  | _ => cur

/-- Decode a JSON value into a `[]string` field: an array decodes per element
(each element starting from the zero value), null sets the slice to nil, a
type mismatch leaves it unchanged. -/
def decStrList (cur : List String) : Json → List String
  | .arr xs => xs.map (fun j => decStr "" j)
  | .null => []
  | _ => cur

/-- Decode one parameter object (unknown keys ignored, as encoding/json). -/
def decParam (j : Json) : ErrorParam :=
  match j with
  | .obj fields =>
    fields.foldl
      (fun p kv =>
        if keyMatch "name" kv.1 then { p with name := decStr p.name kv.2 }
        else if keyMatch "value" kv.1 then { p with value := decStr p.value kv.2 }
        else p)
      {}
  | _ => {}

/-- Decode a JSON value into the `Parameters` slice field. -/
def decParams (cur : List ErrorParam) : Json → List ErrorParam
  | .arr xs => xs.map decParam
  | .null => []
  | _ => cur

/-- Decode the fields of one error record, in JSON order, matching each key
against the struct tags of `ErrorData.Errors` in `src/ebay.go`. -/
def updErrorField (e : ErrorRec) (kv : String × Json) : ErrorRec :=
  if keyMatch "errorId" kv.1 then { e with errorID := decInt e.errorID kv.2 }
  else if keyMatch "domain" kv.1 then { e with domain := decStr e.domain kv.2 }
  else if keyMatch "subDomain" kv.1 then { e with subDomain := decStr e.subDomain kv.2 }
  else if keyMatch "category" kv.1 then { e with category := decStr e.category kv.2 }
  else if keyMatch "message" kv.1 then { e with message := decStr e.message kv.2 }
  else if keyMatch "longMessage" kv.1 then { e with longMessage := decStr e.longMessage kv.2 }
  else if keyMatch "inputRefIds" kv.1 then { e with inputRefIds := decStrList e.inputRefIds kv.2 }
  else if keyMatch "outputRefIds" kv.1 then { e with ouputRefIds := decStrList e.ouputRefIds kv.2 }
  else if keyMatch "parameters" kv.1 then { e with parameters := decParams e.parameters kv.2 }
  else e

/-- Decode one element of the `errors` array (a non-object leaves the fresh
zero record untouched, matching encoding/json's type-mismatch behaviour). -/
def decErrorRec (j : Json) : ErrorRec :=
  match j with
  | .obj fields => fields.foldl updErrorField {}
  | _ => {}

/-- Decode a JSON value into the `Errors` slice field of `ErrorData`. -/
def decErrors (cur : List ErrorRec) : Json → List ErrorRec
  | .arr xs => xs.map decErrorRec
  | .null => []
  | _ => cur

/-- Decode a response body into the `Errors` list exactly as
`json.NewDecoder(resp.Body).Decode(errorData)` does when its error is
discarded: an unreadable or syntactically malformed body leaves the zero
value, a top-level non-object leaves the zero value, and an object is
processed field by field. -/
def decodeErrorData (body : Option Json) : List ErrorRec :=
  match body with
  | none => []
  | some (.obj fields) =>
    fields.foldl (fun errs kv => if keyMatch "errors" kv.1 then decErrors errs kv.2 else errs) []
  | some _ => []

/-- An `http.Response` as observed by this library: the status code and the
body (see the JSON modelling note above). -/
structure Response where
  statusCode : Int
  body : Option Json

/-- The `ErrorData` error value of `src/ebay.go` (the decoded records, the
response that produced them, and the request dump kept for diagnostics). -/
structure ErrorData where
  errors : List ErrorRec
  response : Response
  requestDump : String

/-- Stand-in for `httputil.DumpRequest`: the dump is kept only as a
diagnostic string, so it is modelled as the request line. -/
def dumpRequest (req : Request) : String :=
  req.method ++ " " ++ req.url

/-- The `CheckResponse` of `src/ebay.go`: a 2xx status yields no error;
anything else yields an `ErrorData` holding the best-effort decoded records,
the response, and the request dump.  The decode error is discarded. -/
def CheckResponse (req : Request) (resp : Response) : Option ErrorData :=
  if 200 ≤ resp.statusCode ∧ resp.statusCode < 300 then none
  else some { errors := decodeErrorData resp.body, response := resp,
              requestDump := dumpRequest req }

/-- The errors `Client.Do` of `src/ebay.go` can return. -/
inductive DoError where
  | transportErr (msg : String)
  | api (e : ErrorData)
  | decodeFail

/-- The `Client.Do` of `src/ebay.go`.  The underlying `http.Client.Do` is a
parameter (`transport`); the destination `v interface{}` is modelled by
`hasDest` (whether `v` is non-nil) together with `decode`, the JSON decoding
into `v`'s type (`none` = type mismatch).  Returns the decoded value so that
population of the destination is observable. -/
def Do {α : Type} (transport : Request → Except String Response)
    (decode : Json → Option α) (req : Request) (hasDest : Bool) :
    Except DoError (Option α) :=
  match transport req with
  | .error e => .error (.transportErr e)
  | .ok resp =>
    match CheckResponse req resp with
    | some ed => .error (.api ed)
    | none =>
      if hasDest then
        match resp.body with
        | none => .error .decodeFail
        | some j =>
          match decode j with
          | none => .error .decodeFail
          | some a => .ok (some a)
      else .ok none

/-!  Functional options (`src/browse.go`, `src/offer.go`). -/

/-- Header name constant `headerEndUserCtx` (`src/unnamed/part_005`). -/
def headerEndUserCtx : String :=
  "X-EBAY-C-ENDUSERCTX"

/-- Go `url.QueryEscape`. -/
def queryEscape (s : String) : String :=
  ⟨escapeList .queryComponent s.data⟩

/-- The `OptBrowseContextualLocation` option of `src/browse.go`: append a
percent-encoded `contextualLocation` segment to the end-user-context header,
comma-separating it from any existing value. -/
def OptBrowseContextualLocation (country zip : String) : Opt := fun req =>
  let v := headerGet req headerEndUserCtx
  let v := if v.length > 0 then v ++ "," else v
  let v := v ++ "contextualLocation=" ++ queryEscape ("country=" ++ country ++ ",zip=" ++ zip)
  headerSet req headerEndUserCtx v

/-- The `OptBuyMarketplace` option of `src/offer.go`: set the marketplace
header, overwriting any existing value. -/
def OptBuyMarketplace (marketplaceID : String) : Opt := fun req =>
  headerSet req "X-EBAY-C-MARKETPLACE-ID" marketplaceID

/-!  OAuth2 token source (`src/oauth2.go`). -/

/-- The fields of `golang.org/x/oauth2.Token` that `src/oauth2.go` touches
(expiry bookkeeping is not observed by it and is not modelled). -/
structure OAuthToken where
  accessToken : String
  tokenType : String
  refreshToken : String
deriving DecidableEq

/-- The `BearerTokenSource.Token` of `src/oauth2.go`, as a function of the
wrapped source's result `(t, err)`: force the type of a non-nil token to
`Bearer`, pass the error through. -/
def bearerTokenSourceToken (baseResult : Option OAuthToken × Option String) :
    Option OAuthToken × Option String :=
  match baseResult with
  | (some t, err) => (some { t with tokenType := "Bearer" }, err)
  | (none, err) => (none, err)

/-!  The `PlaceProxyBid` request body (`src/offer.go`). -/

/-- JSON string escaping for the payload values (quote and backslash; control
characters are outside the modelled domain and never appear in the inputs
used below). -/
def jsonEscapeChar (c : Char) : List Char :=
  if c = '"' then ['\\', '"']
  else if c = '\\' then ['\\', '\\']
  else [c]

/-- JSON string quoting as performed by `encoding/json`. -/
def jsonQuote (s : String) : String :=
  ⟨'"' :: (s.data.foldr (fun c acc => jsonEscapeChar c ++ acc) ['"'])⟩

/-- The serialized request body produced by `PlaceProxyBid` in
`src/offer.go`: the anonymous payload struct (`maxAmount{currency,value}`
followed by `userConsent{adultOnlyItem}`, neither field a pointer nor
omitted) marshalled by `encoding/json`, which emits struct fields in
declaration order and never omits a non-pointer struct field.  Modelled from
the spec: the four-argument `NewRequest` that attaches the body is not under
`src/`; per spec section 4.1 a supplied body value "is serialized to JSON",
and the trailing newline is the one `json.Encoder.Encode` appends (visible in
the expected bodies of the tests in `src/unnamed/part_003`). -/
def placeProxyBidBody (maxAmount currency : String) (userConsentAdultOnlyItem : Bool) : String :=
  "\x7b\"maxAmount\":\x7b\"currency\":" ++ jsonQuote currency
    ++ ",\"value\":" ++ jsonQuote maxAmount
    ++ "\x7d,\"userConsent\":\x7b\"adultOnlyItem\":"
    ++ (if userConsentAdultOnlyItem then "true" else "false")
    ++ "\x7d\x7d\n"

/-!  The error-code predicate (`IsError`). -/

/-- A Go `error` value as passed to `IsError`: either the library's
`*ErrorData` or some other error type; `Option` models nil. -/
inductive GoErrVal where
  | errorData (ed : ErrorData)
  | other (msg : String)

/-- Modelled from the spec: `IsError` is referenced by `src/ebay_test.go`
(TestIsErrorMatches, TestIsErrorNoMatches, TestIsErrorWrongType,
TestIsErrorNil) but its definition is not under `src/`.  Spec section 4.3: a
predicate over an arbitrary error value and candidate numeric codes that "
returns true only if the error value is of the API error-payload type AND at
least one of its error records' numeric identifier is in the candidate set.
Any other error type, or nil, yields false (must not panic)". -/
def IsError (err : Option GoErrVal) (codes : List Int) : Bool :=
  match err with
  | some (.errorData ed) => ed.errors.any (fun r => codes.contains r.errorID)
  | _ => false

/-!  Auxiliary notions used by the statements below. -/

/-- Characters over which the URL pipeline acts as the identity: ASCII
letters and digits plus characters that `net/url` neither escapes in a path
or a raw query nor treats specially during parsing, and the query separator
`?`. -/
def urlSafeChar (c : Char) : Bool :=
  isAlphaNumByte c || decide (c ∈ ['-', '.', '_', '~', '&', '=', '/', '?'])

/-- Dot-segment freedom of the path part (before the first `?`) of a
relative reference: no `/`-separated segment is `.` or `..`. -/
def noDotSegments (l : List Char) : Bool :=
  (splitOnChar '/' (splitFirst '?' l).1).all
    (fun s => !(decide (s = ['.']) || decide (s = ['.', '.'])))

/-- The parsed production base URL (what `url.Parse` yields on
`https://api.ebay.com/`). -/
def prodBase : GoURL :=
  { scheme := "https".data, host := "api.ebay.com".data, path := ['/'] }

/-- The raw query that `parseQuerySplit` keeps, as a function of the part
after the first `?` (empty for a lone trailing `?`, which only sets
`ForceQuery`). -/
def rawQueryOf : Option (List Char) → List Char
  | some q => if q = [] then [] else q
  | none => []

/-- Shape test: the JSON value is a string. -/
def jsonIsStr : Json → Bool
  | .str _ => true
  | _ => false

/-- Shape test: the JSON value is a number. -/
def jsonIsNum : Json → Bool
  | .num _ => true
  | _ => false

/-- Shape test: the JSON value is an array of strings. -/
def jsonIsStrArr : Json → Bool
  | .arr xs => xs.all jsonIsStr
  | _ => false

/-- Shape test: the JSON value is a name/value parameter object. -/
def jsonIsParamObj : Json → Bool
  | .obj fields =>
    fields.all (fun kv => (decide (kv.1 = "name") || decide (kv.1 = "value")) && jsonIsStr kv.2)
  | _ => false

/-- Shape test: the JSON value is an array of parameter objects. -/
def jsonIsParamArr : Json → Bool
  | .arr xs => xs.all jsonIsParamObj
  | _ => false

/-- Shape test for one member of an error record, following the struct tags
and field types of `ErrorData.Errors` in `src/ebay.go`. -/
def errorFieldOk (kv : String × Json) : Bool :=
  if kv.1 = "errorId" then jsonIsNum kv.2
  else if kv.1 = "domain" ∨ kv.1 = "subDomain" ∨ kv.1 = "category"
      ∨ kv.1 = "message" ∨ kv.1 = "longMessage" then jsonIsStr kv.2
  else if kv.1 = "inputRefIds" ∨ kv.1 = "outputRefIds" then jsonIsStrArr kv.2
  else if kv.1 = "parameters" then jsonIsParamArr kv.2
  else false

/-- Shape test: the JSON value is a well-typed error record. -/
def wellFormedErrorRec : Json → Bool
  | .obj fields => fields.all errorFieldOk
  | _ => false

/-- Formalization of the spec's "expected shape" of a non-2xx body:
a JSON object consisting of a top-level `errors` array of well-typed error
records.  This definition follows the spec's words (sections 3 and 6), for
comparison with what `CheckResponse` actually decodes. -/
def wellFormedErrorBody : Json → Bool
  | .obj [(k, .arr xs)] => decide (k = "errors") && xs.all wellFormedErrorRec
  | _ => false

/-- The bodies for which the decoded record list is empty: the body is
missing or malformed, not an object, or has no top-level `errors` member
holding a non-empty array. -/
def noErrorsArray (body : Option Json) : Bool :=
  match body with
  | none => true
  | some (.obj fields) =>
    fields.all (fun kv =>
      !(keyMatch "errors" kv.1) || (match kv.2 with | .arr xs => xs.isEmpty | _ => true))
  | some _ => true

/-- Canonical JSON encoding of one parameter, matching its struct tags. -/
def paramToJson (p : ErrorParam) : Json :=
  .obj [("name", .str p.name), ("value", .str p.value)]

/-- Canonical JSON encoding of one error record, matching the struct tags of
`ErrorData.Errors` in `src/ebay.go` in declaration order. -/
def errorRecToJson (e : ErrorRec) : Json :=
  .obj [("errorId", .num e.errorID), ("domain", .str e.domain),
        ("subDomain", .str e.subDomain), ("category", .str e.category),
        ("message", .str e.message), ("longMessage", .str e.longMessage),
        ("inputRefIds", .arr (e.inputRefIds.map Json.str)),
        ("outputRefIds", .arr (e.ouputRefIds.map Json.str)),
        ("parameters", .arr (e.parameters.map paramToJson))]

/-!  Concrete fixtures used by counterexamples and witnesses. -/

/-- A non-2xx body whose single error record mismatches the expected shape
(`errorId` carries a string instead of a number). -/
def shapeMismatchBody : Json :=
  .obj [("errors", .arr [.obj [("errorId", .str "TEXT")]])]

/-- A 400 response carrying `shapeMismatchBody`. -/
def shapeMismatchResp : Response :=
  { statusCode := 400, body := some shapeMismatchBody }

/-- A plain request fixture. -/
def plainReq : Request :=
  { method := "GET", url := "https://api.ebay.com/test", header := fun _ => "" }

/-- A 404 response with an empty (hence undecodable) body. -/
def emptyBodyResp : Response :=
  { statusCode := 404, body := none }

/-- The error record of `TestCheckResponse` in `src/ebay_test.go`. -/
def testRec : ErrorRec :=
  { errorID := 15008, domain := "API_ORDER", subDomain := "subdomain", category := "REQUEST",
    message := "Invalid Field : itemId.", longMessage := "longMessage",
    inputRefIds := ["$.lineItemInputs[0].itemId"], ouputRefIds := ["outputRefId"],
    parameters := [{ name := "itemId", value := "2200077988|0" }] }

/-- A 400 response whose body is the canonical encoding of `[testRec]`. -/
def testResp400 : Response :=
  { statusCode := 400, body := some (.obj [("errors", .arr ([testRec].map errorRecToJson))]) }

/-- Transport fixture: always returns 200 with the body `"itemId"`. -/
def okTransport : Request → Except String Response :=
  fun _ => .ok { statusCode := 200, body := some (.str "itemId") }

/-- Decoder fixture: a destination of type `String`. -/
def strDecode : Json → Option String :=
  fun j => match j with | .str s => some s | _ => none

/-!  Helper lemmas about the list utilities. -/

theorem splitFirst_of_not_mem {sep : Char} {l : List Char} (h : sep ∉ l) :
    splitFirst sep l = (l, none) := by
  induction l with
  | nil => rfl
  | cons c rest ih =>
    have hc : ¬c = sep := fun he => h (he ▸ List.mem_cons_self c rest)
    have hr : sep ∉ rest := fun hm => h (List.mem_cons_of_mem _ hm)
    simp [splitFirst, hc, ih hr]

theorem mem_of_mem_splitFirst_fst {sep : Char} {l : List Char} {c : Char}
    (h : c ∈ (splitFirst sep l).1) : c ∈ l ∧ c ≠ sep := by
  induction l with
  | nil => simp [splitFirst] at h
  | cons a rest ih =>
    by_cases ha : a = sep
    · simp [splitFirst, ha] at h
    · simp only [splitFirst, if_neg ha, List.mem_cons] at h
      rcases h with h | h
      · subst h; exact ⟨List.mem_cons_self _ _, ha⟩
      · rcases ih h with ⟨h1, h2⟩
        exact ⟨List.mem_cons_of_mem _ h1, h2⟩

theorem splitFirst_none_not_mem {sep : Char} {l : List Char}
    (h : (splitFirst sep l).2 = none) : sep ∉ l := by
  induction l with
  | nil => simp
  | cons a rest ih =>
    by_cases ha : a = sep
    · simp [splitFirst, ha] at h
    · simp only [splitFirst, if_neg ha] at h
      simp only [List.mem_cons]
      rintro (h' | hm)
      · exact ha h'.symm
      · exact ih h hm

theorem splitFirst_recon {sep : Char} {l pre q : List Char}
    (h : splitFirst sep l = (pre, some q)) : l = pre ++ sep :: q := by
  induction l generalizing pre with
  | nil => simp [splitFirst] at h
  | cons a rest ih =>
    by_cases ha : a = sep
    · simp only [splitFirst, if_pos ha, Prod.mk.injEq, Option.some.injEq] at h
      subst ha
      rw [← h.1, ← h.2]
      rfl
    · simp only [splitFirst, if_neg ha, Prod.mk.injEq] at h
      have h2 : splitFirst sep rest = ((splitFirst sep rest).1, some q) := by
        rw [← h.2]
      have h3 := ih h2
      rw [← h.1]
      exact congrArg (List.cons a) h3

theorem splitFirst_fst_head (sep : Char) (l : List Char) :
    (splitFirst sep l).1 = [] ∨ (splitFirst sep l).1.head? = l.head? := by
  cases l with
  | nil => left; rfl
  | cons a rest =>
    by_cases ha : a = sep
    · left; simp [splitFirst, ha]
    · right; simp [splitFirst, ha]

theorem splitOnChar_ne_nil (sep : Char) (l : List Char) : splitOnChar sep l ≠ [] := by
  cases l with
  | nil => simp [splitOnChar]
  | cons a rest =>
    by_cases ha : a = sep
    · simp [splitOnChar, ha]
    · simp only [splitOnChar, if_neg ha]
      cases h : splitOnChar sep rest <;> simp

theorem joinSegs_cons (sep : Char) (s : List Char) {tl : List (List Char)} (h : tl ≠ []) :
    joinSegs sep (s :: tl) = s ++ sep :: joinSegs sep tl := by
  cases tl with
  | nil => exact absurd rfl h
  | cons t ts => rfl

theorem joinSegs_splitOnChar (sep : Char) (l : List Char) :
    joinSegs sep (splitOnChar sep l) = l := by
  induction l with
  | nil => rfl
  | cons a rest ih =>
    by_cases ha : a = sep
    · rw [show splitOnChar sep (a :: rest) = [] :: splitOnChar sep rest by
        simp [splitOnChar, ha]]
      rw [joinSegs_cons sep [] (splitOnChar_ne_nil sep rest)]
      simp [ha, ih]
    · obtain ⟨s, tl, hst⟩ : ∃ s tl, splitOnChar sep rest = s :: tl := by
        cases h : splitOnChar sep rest with
        | nil => exact absurd h (splitOnChar_ne_nil sep rest)
        | cons s tl => exact ⟨s, tl, rfl⟩
      rw [show splitOnChar sep (a :: rest) = (a :: s) :: tl by
        simp [splitOnChar, ha, hst]]
      rw [hst] at ih
      cases tl with
      | nil =>
        show a :: s = a :: rest
        simpa using ih
      | cons t ts =>
        rw [joinSegs_cons sep (a :: s) (by simp)]
        rw [joinSegs_cons sep s (by simp)] at ih
        simpa using ih

theorem resolveSegs_no_dots {segs : List (List Char)} (acc : List (List Char))
    (h : ∀ s ∈ segs, s ≠ ['.'] ∧ s ≠ ['.', '.']) :
    resolveSegs segs acc = acc.reverse ++ segs := by
  induction segs generalizing acc with
  | nil => simp [resolveSegs]
  | cons e rest ih =>
    obtain ⟨h1, h2⟩ := h e (List.mem_cons_self e rest)
    simp only [resolveSegs, if_neg h1, if_neg h2]
    rw [ih (e :: acc) (fun s hs => h s (List.mem_cons_of_mem _ hs))]
    simp

theorem mem_of_getLast?_eq_some {α : Type} {l : List α} {a : α}
    (h : l.getLast? = some a) : a ∈ l := by
  induction l with
  | nil => simp [List.getLast?] at h
  | cons x rest ih =>
    cases rest with
    | nil =>
      simp only [List.getLast?_singleton, Option.some.injEq] at h
      simp [h]
    | cons y ys =>
      rw [List.getLast?_cons_cons] at h
      exact List.mem_cons_of_mem _ (ih h)

/-!  C2 — a path with a leading slash is rejected. -/

/-- C2: for every path string starting with `/`, `NewRequest` fails with the
"preceding slash" error and produces no request. -/
theorem newRequest_leading_slash_rejected (c : Client) (method url : String)
    (opts : List Opt) (h : url.data.head? = some '/') :
    NewRequest c method url opts
      = .err "url should always be specified without a preceding slash" := by
  simp [NewRequest, h]

/-- Witness for C2 at the concrete path `/test`. -/
theorem newRequest_leading_slash_rejected_witness :
    ("/test" : String).data.head? = some '/'
      ∧ NewRequest NewClient "GET" "/test" []
          = .err "url should always be specified without a preceding slash" :=
  ⟨by decide, newRequest_leading_slash_rejected NewClient "GET" "/test" [] (by decide)⟩

/-!  C8 — the PlaceProxyBid body always carries `userConsent`. -/

/-- C8: the body `PlaceProxyBid` builds serializes the `userConsent` object
for both flag values; with the flag false the body still contains
`"userConsent":{"adultOnlyItem":false}` and differs from the consent-free
body that `TestPlaceProxyBid` (src/unnamed/part_003) expects. -/
theorem placeProxyBid_body_userConsent_always_present :
    placeProxyBidBody "1.23" "USD" true
      = "\x7b\"maxAmount\":\x7b\"currency\":\"USD\",\"value\":\"1.23\"\x7d,\"userConsent\":\x7b\"adultOnlyItem\":true\x7d\x7d\n"
    ∧ placeProxyBidBody "1.23" "USD" false
      = "\x7b\"maxAmount\":\x7b\"currency\":\"USD\",\"value\":\"1.23\"\x7d,\"userConsent\":\x7b\"adultOnlyItem\":false\x7d\x7d\n"
    ∧ placeProxyBidBody "1.23" "USD" false
      ≠ "\x7b\"maxAmount\":\x7b\"currency\":\"USD\",\"value\":\"1.23\"\x7d\x7d\n" :=
  ⟨by decide, by decide, by decide⟩

/-!  C9 — the bearer token source. -/

/-- C9: `BearerTokenSource.Token` passes the wrapped source's error through
unchanged and maps a non-nil token to the same token with its type forced to
the literal `Bearer` (so any returned token has type `Bearer`, whatever the
wrapped source reported). -/
theorem bearerTokenSource_token_bearer (res : Option OAuthToken × Option String) :
    (bearerTokenSourceToken res).2 = res.2
      ∧ (bearerTokenSourceToken res).1
          = res.1.map (fun t => { t with tokenType := "Bearer" }) := by
  obtain ⟨t, e⟩ := res
  cases t <;> simp [bearerTokenSourceToken]

/-!  C10 — an unparseable base URL with a trailing slash. -/

/-- C10: for every base-URL string ending in `/` that `url.Parse` rejects,
`NewCustomClient` still succeeds (the parse error is discarded by
`newClient`), the stored base URL is nil, and a subsequent `NewRequest` with
a non-slash-prefixed path dereferences the nil base URL and panics. -/
theorem newCustomClient_unparseable_base_panics (s method p : String)
    (hslash : s.data.getLast? = some '/')
    (hbad : parseURL s.data = none)
    (hp : p.data.head? ≠ some '/') :
    NewCustomClient s = .ok (newClient s)
      ∧ (newClient s).baseURL = none
      ∧ NewRequest (newClient s) method p [] = .panicked := by
  refine ⟨by simp [NewCustomClient, hslash], by simp [newClient, hbad], ?_⟩
  simp [NewRequest, hp, newClient, hbad]

/-- Witness for C10: a trailing-slash base URL containing a control byte,
which `url.Parse` rejects. -/
theorem newCustomClient_unparseable_base_panics_witness :
    ("https://api.ebay.com/\x07/" : String).data.getLast? = some '/'
      ∧ parseURL ("https://api.ebay.com/\x07/" : String).data = none
      ∧ (NewCustomClient "https://api.ebay.com/\x07/"
           = .ok (newClient "https://api.ebay.com/\x07/")
        ∧ (newClient "https://api.ebay.com/\x07/").baseURL = none
        ∧ NewRequest (newClient "https://api.ebay.com/\x07/") "GET" "test" [] = .panicked) :=
  ⟨by decide, by decide,
    newCustomClient_unparseable_base_panics "https://api.ebay.com/\x07/" "GET" "test"
      (by decide) (by decide) (by decide)⟩

/-!  C5 — the error-code predicate. -/

/-- C5: `IsError err codes` is true exactly when `err` is an `ErrorData`
value one of whose records has its identifier in `codes`; it is false for
nil, for any other error type, and for an `ErrorData` whose records all fall
outside `codes`. -/
theorem isError_iff (err : Option GoErrVal) (codes : List Int) :
    IsError err codes = true
      ↔ ∃ ed, err = some (.errorData ed) ∧ ∃ r ∈ ed.errors, r.errorID ∈ codes := by
  cases err with
  | none => simp [IsError]
  | some v =>
    cases v with
    | errorData ed =>
      simp only [IsError, List.any_eq_true, Option.some.injEq]
      constructor
      · rintro ⟨r, hr, hc⟩
        exact ⟨ed, rfl, r, hr, by simpa [List.elem_iff] using hc⟩
      · rintro ⟨ed', hed, r, hr, hc⟩
        cases hed
        exact ⟨r, hr, by simpa [List.elem_iff] using hc⟩
    | other m => simp [IsError]

/-!  C6 — `Do` on a 2xx response. -/

/-- C6: when the transport yields a 2xx response, `Do` with a destination
decodes the body into it and returns no error whenever the body is valid
JSON matching the destination's shape, and `Do` without a destination
returns no error without decoding the body (whatever the body is). -/
theorem do_2xx_populates_destination {α : Type}
    (transport : Request → Except String Response) (decode : Json → Option α)
    (req : Request) (resp : Response)
    (ht : transport req = .ok resp)
    (h2 : 200 ≤ resp.statusCode ∧ resp.statusCode < 300) :
    (∀ j a, resp.body = some j → decode j = some a →
        Do transport decode req true = .ok (some a))
      ∧ Do transport decode req false = .ok none := by
  constructor
  · intro j a hb hd
    simp [Do, ht, CheckResponse, h2, hb, hd]
  · simp [Do, ht, CheckResponse, h2]

/-- Witness for C6 with a 200 response carrying the string body `"itemId"`
and a `String` destination. -/
theorem do_2xx_populates_destination_witness :
    okTransport plainReq = .ok { statusCode := 200, body := some (.str "itemId") }
      ∧ Do okTransport strDecode plainReq true = .ok (some "itemId")
      ∧ Do okTransport strDecode plainReq false = .ok none :=
  ⟨rfl,
    (do_2xx_populates_destination okTransport strDecode plainReq _ rfl (by decide)).1
      (.str "itemId") "itemId" rfl rfl,
    (do_2xx_populates_destination okTransport strDecode plainReq _ rfl (by decide)).2⟩

/-!  C7 — header option composition. -/

/-- C7: applying the end-user-context option twice appends both
percent-encoded `contextualLocation` segments, comma-joined, in application
order (after any pre-existing header value); applying the marketplace option
twice leaves only the second value. -/
theorem header_options_append_and_overwrite (req : Request) (c1 z1 c2 z2 m1 m2 : String)
    (hdiff : (c1, z1) ≠ (c2, z2)) :
    headerGet (OptBrowseContextualLocation c2 z2 (OptBrowseContextualLocation c1 z1 req))
        headerEndUserCtx
      = (if (headerGet req headerEndUserCtx).length > 0
          then headerGet req headerEndUserCtx ++ "," else "")
          ++ ("contextualLocation=" ++ queryEscape ("country=" ++ c1 ++ ",zip=" ++ z1))
          ++ ("," ++ ("contextualLocation=" ++ queryEscape ("country=" ++ c2 ++ ",zip=" ++ z2)))
      ∧ headerGet (OptBuyMarketplace m2 (OptBuyMarketplace m1 req)) "X-EBAY-C-MARKETPLACE-ID"
          = m2 := by
  constructor
  · have hget : ∀ (r : Request) (v : String),
        headerGet (headerSet r headerEndUserCtx v) headerEndUserCtx = v := by
      intro r v
      simp [headerGet, headerSet]
    have h19 : ("contextualLocation=" : String).length = 19 := by decide
    have hlen : ∀ x q : String, ((x ++ "contextualLocation=") ++ q).length > 0 := by
      intro x q
      rw [String.length_append, String.length_append, h19]
      omega
    have h1 : OptBrowseContextualLocation c1 z1 req
        = headerSet req headerEndUserCtx
            (((if (headerGet req headerEndUserCtx).length > 0
                then headerGet req headerEndUserCtx ++ ","
                else headerGet req headerEndUserCtx) ++ "contextualLocation=")
              ++ queryEscape ("country=" ++ c1 ++ ",zip=" ++ z1)) := rfl
    have h2 : OptBrowseContextualLocation c2 z2 (OptBrowseContextualLocation c1 z1 req)
        = headerSet (OptBrowseContextualLocation c1 z1 req) headerEndUserCtx
            (((if (headerGet (OptBrowseContextualLocation c1 z1 req)
                    headerEndUserCtx).length > 0
                then headerGet (OptBrowseContextualLocation c1 z1 req) headerEndUserCtx ++ ","
                else headerGet (OptBrowseContextualLocation c1 z1 req) headerEndUserCtx)
              ++ "contextualLocation=")
              ++ queryEscape ("country=" ++ c2 ++ ",zip=" ++ z2)) := rfl
    rw [h2, hget]
    rw [show headerGet (OptBrowseContextualLocation c1 z1 req) headerEndUserCtx
        = ((if (headerGet req headerEndUserCtx).length > 0
            then headerGet req headerEndUserCtx ++ ","
            else headerGet req headerEndUserCtx) ++ "contextualLocation=")
          ++ queryEscape ("country=" ++ c1 ++ ",zip=" ++ z1) from by rw [h1, hget]]
    rw [if_pos (hlen _ _)]
    by_cases hz : (headerGet req headerEndUserCtx).length > 0
    · simp only [if_pos hz, String.append_assoc]
    · have hz0 : headerGet req headerEndUserCtx = "" := by
        have hl : (headerGet req headerEndUserCtx).length = 0 := by omega
        cases hg : headerGet req headerEndUserCtx with
        | mk d =>
          rw [hg] at hl
          cases d with
          | nil => rfl
          | cons a t => simp [String.length] at hl
      simp only [if_neg hz, hz0, String.empty_append, String.append_assoc]
  · simp [OptBuyMarketplace, headerGet, headerSet]

/-!  C3 — CheckResponse on undecodable bodies. -/

theorem foldErrors_empty (fields : List (String × Json))
    (h : ∀ kv ∈ fields, (!(keyMatch "errors" kv.1)
        || (match kv.2 with | Json.arr xs => xs.isEmpty | _ => true)) = true) :
    fields.foldl (fun errs kv => if keyMatch "errors" kv.1 then decErrors errs kv.2 else errs) []
      = [] := by
  induction fields with
  | nil => rfl
  | cons kv rest ih =>
    have hkv := h kv (List.mem_cons_self _ _)
    have hrest := fun kv' hm => h kv' (List.mem_cons_of_mem _ hm)
    simp only [List.foldl_cons]
    have hstep : (if keyMatch "errors" kv.1 then decErrors [] kv.2 else [])
        = ([] : List ErrorRec) := by
      by_cases hk : keyMatch "errors" kv.1 = true
      · rw [if_pos hk]
        rw [hk] at hkv
        simp only [Bool.not_true, Bool.false_or] at hkv
        cases hj : kv.2 with
        | arr xs =>
          rw [hj] at hkv
          have hxs : xs = [] := by
            simpa using hkv
          rw [hxs]
          rfl
        | null => rfl
        | bool b => rfl
        | num n => rfl
        | str s => rfl
        | obj fs => rfl
      · rw [if_neg hk]
    rw [hstep]
    exact ih hrest

theorem decodeErrorData_empty_of_noErrorsArray {body : Option Json}
    (h : noErrorsArray body = true) : decodeErrorData body = [] := by
  cases body with
  | none => rfl
  | some j =>
    cases j with
    | obj fields =>
      simp only [noErrorsArray, List.all_eq_true] at h
      exact foldErrors_empty fields (fun kv hm => h kv hm)
    | null => rfl
    | bool b => rfl
    | num n => rfl
    | str s => rfl
    | arr xs => rfl

/-- C3 counterexample: a non-2xx response whose body does not match the
expected error shape (`errorId` is a string) still decodes to a record list
of length one — not the empty list the claim requires. -/
theorem checkResponse_shape_mismatch_nonempty_records :
    wellFormedErrorBody shapeMismatchBody = false
      ∧ ∃ ed, CheckResponse plainReq shapeMismatchResp = some ed
          ∧ ed.errors.length = 1 ∧ ed.errors ≠ [] :=
  ⟨by decide, ⟨_, rfl, by decide, by decide⟩⟩

/-- C3 (amended): every non-2xx response yields a typed `ErrorData` carrying
the original response (hence its status code), never a decode failure; and
whenever the body is empty, malformed, not an object, or has no non-empty
top-level errors array, the decoded record list is empty. -/
theorem checkResponse_non2xx_typed_error (req : Request) (resp : Response)
    (h : ¬(200 ≤ resp.statusCode ∧ resp.statusCode < 300)) :
    ∃ ed, CheckResponse req resp = some ed ∧ ed.response = resp
      ∧ (noErrorsArray resp.body = true → ed.errors = []) := by
  refine ⟨{ errors := decodeErrorData resp.body, response := resp,
            requestDump := dumpRequest req }, ?_, rfl,
    fun hn => decodeErrorData_empty_of_noErrorsArray hn⟩
  simp [CheckResponse, h]

/-- Witness for C3 (amended) at a 404 response with an empty body. -/
theorem checkResponse_non2xx_typed_error_witness :
    ¬(200 ≤ emptyBodyResp.statusCode ∧ emptyBodyResp.statusCode < 300)
      ∧ ∃ ed, CheckResponse plainReq emptyBodyResp = some ed ∧ ed.response = emptyBodyResp
          ∧ (noErrorsArray emptyBodyResp.body = true → ed.errors = []) :=
  ⟨by decide, checkResponse_non2xx_typed_error plainReq emptyBodyResp (by decide)⟩

/-!  C4 — CheckResponse on a well-formed errors array. -/

theorem decParam_paramToJson (p : ErrorParam) : decParam (paramToJson p) = p := rfl

theorem updErrorField_errorId (e : ErrorRec) (v : Json) :
    updErrorField e ("errorId", v) = { e with errorID := decInt e.errorID v } := rfl

theorem updErrorField_domain (e : ErrorRec) (v : Json) :
    updErrorField e ("domain", v) = { e with domain := decStr e.domain v } := rfl

theorem updErrorField_subDomain (e : ErrorRec) (v : Json) :
    updErrorField e ("subDomain", v) = { e with subDomain := decStr e.subDomain v } := rfl

theorem updErrorField_category (e : ErrorRec) (v : Json) :
    updErrorField e ("category", v) = { e with category := decStr e.category v } := rfl

theorem updErrorField_message (e : ErrorRec) (v : Json) :
    updErrorField e ("message", v) = { e with message := decStr e.message v } := rfl

theorem updErrorField_longMessage (e : ErrorRec) (v : Json) :
    updErrorField e ("longMessage", v) = { e with longMessage := decStr e.longMessage v } := rfl

theorem updErrorField_inputRefIds (e : ErrorRec) (v : Json) :
    updErrorField e ("inputRefIds", v)
      = { e with inputRefIds := decStrList e.inputRefIds v } := rfl

theorem updErrorField_outputRefIds (e : ErrorRec) (v : Json) :
    updErrorField e ("outputRefIds", v)
      = { e with ouputRefIds := decStrList e.ouputRefIds v } := rfl

theorem updErrorField_parameters (e : ErrorRec) (v : Json) :
    updErrorField e ("parameters", v)
      = { e with parameters := decParams e.parameters v } := rfl

theorem decErrorRec_errorRecToJson (e : ErrorRec) : decErrorRec (errorRecToJson e) = e := by
  have h1 : ∀ xs : List String, (xs.map Json.str).map (fun j => decStr "" j) = xs := by
    intro xs
    rw [List.map_map]
    exact List.map_id'' (fun x => rfl) xs
  have h2 : ∀ ps : List ErrorParam, (ps.map paramToJson).map decParam = ps := by
    intro ps
    rw [List.map_map]
    exact List.map_id'' (fun p => decParam_paramToJson p) ps
  show List.foldl updErrorField {}
      [("errorId", Json.num e.errorID), ("domain", Json.str e.domain),
       ("subDomain", Json.str e.subDomain), ("category", Json.str e.category),
       ("message", Json.str e.message), ("longMessage", Json.str e.longMessage),
       ("inputRefIds", Json.arr (e.inputRefIds.map Json.str)),
       ("outputRefIds", Json.arr (e.ouputRefIds.map Json.str)),
       ("parameters", Json.arr (e.parameters.map paramToJson))] = e
  rw [List.foldl_cons, updErrorField_errorId]
  rw [List.foldl_cons, updErrorField_domain]
  rw [List.foldl_cons, updErrorField_subDomain]
  rw [List.foldl_cons, updErrorField_category]
  rw [List.foldl_cons, updErrorField_message]
  rw [List.foldl_cons, updErrorField_longMessage]
  rw [List.foldl_cons, updErrorField_inputRefIds]
  rw [List.foldl_cons, updErrorField_outputRefIds]
  rw [List.foldl_cons, updErrorField_parameters]
  rw [List.foldl_nil]
  show ({ errorID := e.errorID, domain := e.domain, subDomain := e.subDomain,
          category := e.category, message := e.message, longMessage := e.longMessage,
          inputRefIds := (e.inputRefIds.map Json.str).map (fun j => decStr "" j),
          ouputRefIds := (e.ouputRefIds.map Json.str).map (fun j => decStr "" j),
          parameters := (e.parameters.map paramToJson).map decParam } : ErrorRec) = e
  rw [h1, h1, h2]

/-- C4: a non-2xx response whose body is an object with a well-formed
top-level errors array decodes to a record list with exactly the source
records — same length, same field values, in the original order. -/
theorem checkResponse_wellformed_roundtrip (req : Request) (resp : Response)
    (rs : List ErrorRec)
    (h : ¬(200 ≤ resp.statusCode ∧ resp.statusCode < 300))
    (hb : resp.body = some (.obj [("errors", .arr (rs.map errorRecToJson))])) :
    ∃ ed, CheckResponse req resp = some ed ∧ ed.errors = rs ∧ ed.response = resp := by
  refine ⟨{ errors := decodeErrorData resp.body, response := resp,
            requestDump := dumpRequest req }, by simp [CheckResponse, h], ?_, rfl⟩
  rw [hb]
  have hk : keyMatch "errors" "errors" = true := by decide
  simp only [decodeErrorData, List.foldl_cons, List.foldl_nil, hk, eq_self_iff_true,
    if_true, decErrors]
  clear hb
  induction rs with
  | nil => rfl
  | cons r rest ih => simp only [List.map_cons, decErrorRec_errorRecToJson, ih]

/-- Witness for C4 at the record of `TestCheckResponse` (`src/ebay_test.go`). -/
theorem checkResponse_wellformed_roundtrip_witness :
    ¬(200 ≤ testResp400.statusCode ∧ testResp400.statusCode < 300)
      ∧ ∃ ed, CheckResponse plainReq testResp400 = some ed ∧ ed.errors = [testRec]
          ∧ ed.response = testResp400 :=
  ⟨by decide, checkResponse_wellformed_roundtrip plainReq testResp400 [testRec]
    (by decide) rfl⟩

/-!  C1 — relative path resolution in NewRequest. -/

theorem urlSafe_ne_colon {c : Char} (h : urlSafeChar c = true) : c ≠ ':' := by
  rintro rfl
  exact absurd h (by decide)

theorem urlSafe_ne_hash {c : Char} (h : urlSafeChar c = true) : c ≠ '#' := by
  rintro rfl
  exact absurd h (by decide)

theorem urlSafe_not_ctl {c : Char} (h : urlSafeChar c = true) : isCtl c = false := by
  simp only [urlSafeChar, isAlphaNumByte, isAlphaByte, isDigitByte, Bool.or_eq_true,
    decide_eq_true_eq] at h
  simp only [isCtl, decide_eq_false_iff_not]
  rcases h with (h | h) | h
  · omega
  · omega
  · fin_cases h <;> decide

theorem getSchemeAux_safe (orig : List Char) {l : List Char} (acc : List Char)
    (h : ∀ c ∈ l, urlSafeChar c = true) :
    getSchemeAux orig l acc = .ok ([], orig) := by
  induction l generalizing acc with
  | nil => rfl
  | cons c rest ih =>
    have hc := h c (List.mem_cons_self c rest)
    have hrest : ∀ d ∈ rest, urlSafeChar d = true := fun d hd => h d (List.mem_cons_of_mem _ hd)
    have hne : ¬c = ':' := urlSafe_ne_colon hc
    simp only [getSchemeAux]
    by_cases h1 : isAlphaByte c = true
    · rw [if_pos h1]
      exact ih _ hrest
    · rw [if_neg h1]
      by_cases h2 : isDigitByte c = true ∨ c = '+' ∨ c = '-' ∨ c = '.'
      · rw [if_pos h2]
        by_cases h3 : acc = []
        · rw [if_pos h3]
        · rw [if_neg h3]
          exact ih _ hrest
      · rw [if_neg h2, if_neg hne]

theorem escapeChar_path_safe {c : Char} (hc : urlSafeChar c = true) (hq : c ≠ '?') :
    escapeChar c .path = [c] := by
  have hse : shouldEscape c .path = false := by
    have hc' : isAlphaNumByte c = true ∨ c ∈ ['-', '.', '_', '~', '&', '=', '/', '?'] := by
      simpa [urlSafeChar] using hc
    rcases hc' with h | h
    · simp [shouldEscape, h]
    · fin_cases h <;> first | decide | exact absurd rfl hq
  simp [escapeChar, hse]

theorem escapeList_path_id {l : List Char} (hs : ∀ c ∈ l, urlSafeChar c = true)
    (hq : '?' ∉ l) : escapeList .path l = l := by
  induction l with
  | nil => rfl
  | cons c rest ih =>
    rw [escapeList, escapeChar_path_safe (hs c (List.mem_cons_self c rest))
        (fun he => hq (he ▸ List.mem_cons_self c rest)),
      ih (fun d hd => hs d (List.mem_cons_of_mem _ hd)) (fun hm => hq (List.mem_cons_of_mem _ hm))]
    rfl

theorem resolvePath_slash_no_dots {pp : List Char}
    (hh : pp.head? ≠ some '/')
    (hd : ∀ s ∈ splitOnChar '/' pp, s ≠ ['.'] ∧ s ≠ ['.', '.']) :
    resolvePath ['/'] pp = '/' :: pp := by
  by_cases hpp : pp = []
  · subst hpp
    rfl
  · have hsegs : splitOnChar '/' ('/' :: pp) = [] :: splitOnChar '/' pp := by
      simp [splitOnChar]
    have hmem : ∀ s ∈ [] :: splitOnChar '/' pp, s ≠ ['.'] ∧ s ≠ ['.', '.'] := by
      intro s hs
      rcases List.mem_cons.mp hs with h | h
      · subst h
        exact ⟨by simp, by simp⟩
      · exact hd s h
    have hlast : ¬(([] :: splitOnChar '/' pp).getLast? = some ['.']
        ∨ ([] :: splitOnChar '/' pp).getLast? = some ['.', '.']) := by
      rintro (h | h)
      · rcases hmem _ (mem_of_getLast?_eq_some h) with ⟨h1, _⟩
        exact h1 rfl
      · rcases hmem _ (mem_of_getLast?_eq_some h) with ⟨_, h2⟩
        exact h2 rfl
    have hres : resolveSegs ([] :: splitOnChar '/' pp) [] = [] :: splitOnChar '/' pp :=
      resolveSegs_no_dots [] hmem
    have hjoin : joinSegs '/' ([] :: splitOnChar '/' pp) = '/' :: pp := by
      rw [joinSegs_cons '/' [] (splitOnChar_ne_nil '/' pp), joinSegs_splitOnChar]
      rfl
    simp only [resolvePath, if_neg hpp, if_neg hh]
    rw [show (match lastIndexChar '/' ['/'] with
          | none => pp
          | some i => List.take (i + 1) ['/'] ++ pp) = '/' :: pp from rfl]
    rw [if_neg (show ¬('/' :: pp = []) by simp)]
    rw [hsegs, hres, if_neg hlast, hjoin]
    simp

theorem parseAfterQuery_safe_rel (pp : List Char) (fq : Bool) (rq : List Char)
    (hsafe : ∀ c ∈ pp, urlSafeChar c = true)
    (hh : pp.head? ≠ some '/') :
    parseAfterQuery [] pp fq rq
      = some { scheme := [], path := pp, forceQuery := fq, rawQuery := rq } := by
  rw [parseAfterQuery, if_neg hh, if_neg (by simp)]
  rw [if_neg ?hcolon]
  case hcolon =>
    intro hmem
    have := hsafe ':' (mem_of_mem_splitFirst_fst hmem).1
    exact absurd this (by decide)

theorem parseURL_safe_rel {pd : List Char} (pp : List Char) (o : Option (List Char))
    (hsafe : ∀ c ∈ pd, urlSafeChar c = true)
    (hh : pd.head? ≠ some '/')
    (hsplit : splitFirst '?' pd = (pp, o)) :
    parseURL pd
      = some { scheme := [], path := pp,
               forceQuery := decide (o = some []),
               rawQuery := rawQueryOf o } := by
  have hppsafe : ∀ c ∈ pp, urlSafeChar c = true := by
    intro c hc
    have hc' : c ∈ (splitFirst '?' pd).1 := by
      rw [hsplit]
      exact hc
    exact hsafe c (mem_of_mem_splitFirst_fst hc').1
  have hpph : pp.head? ≠ some '/' := by
    rcases splitFirst_fst_head '?' pd with h0 | h0
    · rw [hsplit] at h0
      simp only at h0
      rw [h0]
      simp
    · rw [hsplit] at h0
      simp only at h0
      rw [h0]
      exact hh
  have hhash : '#' ∉ pd := fun hm' => urlSafe_ne_hash (hsafe _ hm') rfl
  have hctl : hasCtl pd = false := by
    simp only [hasCtl, List.any_eq_false]
    intro c hc
    simp [urlSafe_not_ctl (hsafe c hc)]
  have hscheme : getScheme pd = .ok ([], pd) := getSchemeAux_safe pd [] hsafe
  have hqsplit : parseQuerySplit pd
      = (pp, decide (o = some []), rawQueryOf o) := by
    match o, hsplit with
    | none, hsplit =>
      simp only [parseQuerySplit]
      rw [hsplit]
      rfl
    | some [], hsplit =>
      simp only [parseQuerySplit]
      rw [hsplit]
      rfl
    | some (c :: q'), hsplit =>
      simp only [parseQuerySplit]
      rw [hsplit]
      simp [rawQueryOf]
  have hpn : parseNoFrag pd
      = some { scheme := [], path := pp, forceQuery := decide (o = some []),
               rawQuery := rawQueryOf o } := by
    simp only [parseNoFrag, hctl, Bool.false_eq_true, if_false]
    rw [hscheme]
    show parseAfterQuery (List.map Char.toLower []) (parseQuerySplit pd).1
        (parseQuerySplit pd).2.1 (parseQuerySplit pd).2.2 = _
    rw [hqsplit]
    show parseAfterQuery [] pp _ _ = _
    exact parseAfterQuery_safe_rel pp _ _ hppsafe hpph
  simp only [parseURL]
  rw [splitFirst_of_not_mem hhash]
  show (match parseNoFrag pd with
        | none => none
        | some u => some u) = _
  rw [hpn]

theorem resolveReference_prodBase_rel (pp : List Char) (fq : Bool) (rq : List Char)
    (hsafe : ∀ c ∈ pp, urlSafeChar c = true)
    (hq : '?' ∉ pp)
    (hh : pp.head? ≠ some '/')
    (hd : ∀ s ∈ splitOnChar '/' pp, s ≠ ['.'] ∧ s ≠ ['.', '.']) :
    resolveReference prodBase { scheme := [], path := pp, forceQuery := fq, rawQuery := rq }
      = { scheme := "https".data, host := "api.ebay.com".data, path := '/' :: pp,
          forceQuery := fq, rawQuery := rq } := by
  have hep : escapedPath { scheme := [], path := pp, forceQuery := fq, rawQuery := rq } = pp :=
    escapeList_path_id hsafe hq
  have hrp : resolvePath (escapedPath prodBase)
      (escapedPath { scheme := ([] : List Char), path := pp, forceQuery := fq, rawQuery := rq })
      = '/' :: pp := by
    rw [hep]
    rw [show escapedPath prodBase = ['/'] from by decide]
    exact resolvePath_slash_no_dots hh hd
  rw [resolveReference]
  rw [if_pos rfl, if_neg (by simp), if_neg (by simp)]
  by_cases hc : pp = [] ∧ ¬fq = true ∧ rq = []
  · rw [if_pos hc, if_pos rfl]
    rw [hrp]
    obtain ⟨h1, h2, h3⟩ := hc
    rw [h3]
    rfl
  · rw [if_neg hc]
    rw [hrp]
    rfl

theorem urlString_prod_core (p0 rq : List Char) (fq : Bool)
    (hesc : escapeList .path p0 = p0)
    (hh0 : p0.head? = some '/') :
    urlString { scheme := "https".data, host := "api.ebay.com".data, path := p0,
                forceQuery := fq, rawQuery := rq }
      = ("https://api.ebay.com".data ++ p0)
          ++ (if fq = true ∨ rq ≠ [] then '?' :: rq else []) := by
  simp only [urlString, escapedPath]
  rw [hesc]
  rw [if_pos (show ("https".data : List Char) ≠ [] from by decide)]
  rw [if_neg (show ¬(([] : List Char) ≠ []) from by decide)]
  rw [if_pos (show ("https".data : List Char) ≠ [] ∨ ("api.ebay.com".data : List Char) ≠ []
    from Or.inl (by decide))]
  rw [if_pos (show ("api.ebay.com".data : List Char) ≠ [] ∨ p0 ≠ [] from Or.inl (by decide))]
  rw [if_neg (show ¬(p0 ≠ [] ∧ ¬(p0.head? = some '/') ∧ ("api.ebay.com".data : List Char) ≠ [])
    from fun hcon => hcon.2.1 hh0)]
  rw [show (("https".data ++ [':']) ++ ['/', '/'])
      ++ escapeList .host "api.ebay.com".data = "https://api.ebay.com".data from by decide]
  rw [if_neg (show ¬(("https://api.ebay.com".data : List Char) = [] ∧ needsDotSlash p0 = true)
    from fun hcon => absurd hcon.1 (by decide))]
  rw [if_neg (show ¬(([] : List Char) ≠ []) from by decide)]
  by_cases hq7 : fq = true ∨ rq ≠ []
  · rw [if_pos hq7, if_pos hq7]
  · rw [if_neg hq7, if_neg hq7, List.append_nil]

theorem urlString_prod (pp rq : List Char) (fq : Bool)
    (hsafe : ∀ c ∈ pp, urlSafeChar c = true)
    (hq : '?' ∉ pp) :
    urlString { scheme := "https".data, host := "api.ebay.com".data, path := '/' :: pp,
                forceQuery := fq, rawQuery := rq }
      = ("https://api.ebay.com/".data ++ pp)
          ++ (if fq = true ∨ rq ≠ [] then '?' :: rq else []) := by
  have hep : escapeList .path ('/' :: pp) = '/' :: pp := by
    rw [escapeList, show escapeChar '/' .path = ['/'] from by decide,
      escapeList_path_id hsafe hq]
    rfl
  rw [urlString_prod_core ('/' :: pp) rq fq hep rfl]
  have hx : ("https://api.ebay.com".data : List Char) ++ ('/' :: pp)
      = "https://api.ebay.com/".data ++ pp := by
    rw [List.append_cons]
    rw [show ("https://api.ebay.com".data : List Char) ++ ['/']
        = "https://api.ebay.com/".data from by decide]
  rw [hx]

theorem httpNewRequest_ok (m u : String) (hm : m.data.all isTokenChar = true) :
    httpNewRequest m u
      = .ok { method := if m = "" then "GET" else m, url := u, header := fun _ => "" } := by
  by_cases hm0 : m = ""
  · subst hm0
    rfl
  · simp only [httpNewRequest, if_neg hm0]
    rw [if_pos hm]

theorem newRequest_eval (c : Client) (m p : String) (b u : GoURL) (req : Request)
    (hh : p.data.head? ≠ some '/')
    (hb : c.baseURL = some b)
    (hu : urlParseRef b p.data = some u)
    (hreq : httpNewRequest m ⟨urlString u⟩ = .ok req) :
    NewRequest c m p [] = .ok req := by
  simp only [NewRequest]
  rw [if_neg hh, hb]
  show (match urlParseRef b p.data with
        | none => ReqResult.err "parse error"
        | some u =>
          match httpNewRequest m ⟨urlString u⟩ with
          | .error e => ReqResult.err e
          | .ok req => ReqResult.ok
              (List.foldl (fun (r : Request) (f : Opt) => f r) req ([] : List Opt))) = _
  rw [hu]
  show (match httpNewRequest m ⟨urlString u⟩ with
        | .error e => ReqResult.err e
        | .ok req => ReqResult.ok
            (List.foldl (fun (r : Request) (f : Opt) => f r) req ([] : List Opt))) = _
  rw [hreq]
  rfl

/-- C1 (amended): for every method made of valid HTTP token characters and
every relative path over URL-safe characters (ASCII letters and digits and
`-._~&=/?`) that does not start with `/` and whose path part contains no `.`
or `..` segment, `NewRequest` on the production client succeeds and the
request's absolute URL is exactly the configured base URL concatenated with
the path — once, with no double slashes and no dropped segments. -/
theorem newRequest_relative_safe_path_concatenation (m p : String)
    (hm : m.data.all isTokenChar = true)
    (hs : p.data.all urlSafeChar = true)
    (hh : p.data.head? ≠ some '/')
    (hd : noDotSegments p.data = true) :
    ∃ req, NewRequest NewClient m p [] = .ok req ∧ req.url = prodBaseURL ++ p := by
  have hs' : ∀ c ∈ p.data, urlSafeChar c = true := by
    simpa [List.all_eq_true] using hs
  obtain ⟨pp, o, hsplit⟩ : ∃ pp o, splitFirst '?' p.data = (pp, o) := ⟨_, _, rfl⟩
  have hppmem : ∀ c ∈ pp, c ∈ p.data ∧ c ≠ '?' := by
    intro c hc
    have hc' : c ∈ (splitFirst '?' p.data).1 := by
      rw [hsplit]
      exact hc
    exact mem_of_mem_splitFirst_fst hc'
  have hpps : ∀ c ∈ pp, urlSafeChar c = true := fun c hc => hs' c (hppmem c hc).1
  have hppq : '?' ∉ pp := fun hmem => (hppmem _ hmem).2 rfl
  have hpph : pp.head? ≠ some '/' := by
    rcases splitFirst_fst_head '?' p.data with h0 | h0
    · rw [hsplit] at h0
      simp only at h0
      rw [h0]
      simp
    · rw [hsplit] at h0
      simp only at h0
      rw [h0]
      exact hh
  have hdots : ∀ s ∈ splitOnChar '/' pp, s ≠ ['.'] ∧ s ≠ ['.', '.'] := by
    simp only [noDotSegments, List.all_eq_true] at hd
    intro s hsm
    have hsm' : s ∈ splitOnChar '/' (splitFirst '?' p.data).1 := by
      rw [hsplit]
      exact hsm
    have := hd s hsm'
    simpa using this
  have hparse := parseURL_safe_rel pp o hs' hh hsplit
  have hres := resolveReference_prodBase_rel pp (decide (o = some [])) (rawQueryOf o)
    hpps hppq hpph hdots
  have hstr := urlString_prod pp (rawQueryOf o) (decide (o = some [])) hpps hppq
  have hupr : urlParseRef prodBase p.data
      = some { scheme := "https".data, host := "api.ebay.com".data, path := '/' :: pp,
               forceQuery := decide (o = some []), rawQuery := rawQueryOf o } := by
    rw [urlParseRef, hparse, Option.map_some', hres]
  have hfinal : ("https://api.ebay.com/".data ++ pp)
      ++ (if decide (o = some []) = true ∨ rawQueryOf o ≠ []
          then '?' :: rawQueryOf o else [])
      = "https://api.ebay.com/".data ++ p.data := by
    match o, hsplit with
    | none, hsplit =>
      have hnm : '?' ∉ p.data := splitFirst_none_not_mem (by rw [hsplit])
      have hpp : pp = p.data := by
        have h2 := (splitFirst_of_not_mem hnm).symm.trans hsplit
        simp only [Prod.mk.injEq] at h2
        exact h2.1.symm
      simp [rawQueryOf, hpp]
    | some [], hsplit =>
      rw [splitFirst_recon hsplit]
      simp [rawQueryOf, List.append_assoc]
    | some (c :: q'), hsplit =>
      rw [splitFirst_recon hsplit]
      simp [rawQueryOf, List.append_assoc]
  have hurl : urlString { scheme := "https".data, host := "api.ebay.com".data,
                          path := '/' :: pp, forceQuery := decide (o = some []),
                          rawQuery := rawQueryOf o }
      = "https://api.ebay.com/".data ++ p.data := hstr.trans hfinal
  have hhttp := httpNewRequest_ok m ⟨"https://api.ebay.com/".data ++ p.data⟩ hm
  refine ⟨{ method := if m = "" then "GET" else m,
            url := ⟨"https://api.ebay.com/".data ++ p.data⟩, header := fun _ => "" },
          newRequest_eval NewClient m p prodBase _ _ hh (by decide) hupr ?_, ?_⟩
  · rw [hurl]
    exact hhttp
  · show (⟨"https://api.ebay.com/".data ++ p.data⟩ : String) = prodBaseURL ++ p
    cases p with
    | mk d => rfl

/-- Witness for C1 (amended) at a realistic search path with a query. -/
theorem newRequest_relative_safe_path_concatenation_witness :
    (("buy/browse/v1/item_summary/search?q=drone&limit=3" : String).data.all urlSafeChar = true
      ∧ noDotSegments ("buy/browse/v1/item_summary/search?q=drone&limit=3" : String).data)
      ∧ ∃ req, NewRequest NewClient "GET" "buy/browse/v1/item_summary/search?q=drone&limit=3" []
            = .ok req
          ∧ req.url = prodBaseURL ++ "buy/browse/v1/item_summary/search?q=drone&limit=3" :=
  ⟨⟨by decide, by decide⟩,
    newRequest_relative_safe_path_concatenation "GET"
      "buy/browse/v1/item_summary/search?q=drone&limit=3"
      (by decide) (by decide) (by decide) (by decide)⟩

/-- C1 counterexample: the relative path `../x` does not start with a slash,
yet the URL `NewRequest` builds is not the base concatenated with the path —
`url.Parse` resolves the dot segments, dropping one and rewriting the URL to
`https://api.ebay.com/x`. -/
theorem newRequest_dotdot_not_concatenation :
    ∃ req, NewRequest NewClient "GET" "../x" [] = .ok req
      ∧ req.url = "https://api.ebay.com/x"
      ∧ req.url ≠ prodBaseURL ++ "../x" :=
  ⟨_, rfl, rfl, by decide⟩

/-- Witness for C7 at the values of the repository's tests. -/
theorem header_options_append_and_overwrite_witness :
    (("US", "19406") : String × String) ≠ ("FR", "75001")
      ∧ (headerGet
          (OptBrowseContextualLocation "FR" "75001"
            (OptBrowseContextualLocation "US" "19406" plainReq)) headerEndUserCtx
        = (if (headerGet plainReq headerEndUserCtx).length > 0
            then headerGet plainReq headerEndUserCtx ++ "," else "")
            ++ ("contextualLocation=" ++ queryEscape ("country=" ++ "US" ++ ",zip=" ++ "19406"))
            ++ ("," ++ ("contextualLocation="
                ++ queryEscape ("country=" ++ "FR" ++ ",zip=" ++ "75001")))
        ∧ headerGet (OptBuyMarketplace "EBAY_DE" (OptBuyMarketplace "EBAY_US" plainReq))
            "X-EBAY-C-MARKETPLACE-ID" = "EBAY_DE") :=
  ⟨by decide,
    header_options_append_and_overwrite plainReq "US" "19406" "FR" "75001"
      "EBAY_US" "EBAY_DE" (by decide)⟩

end Ebay
